import Mathlib

/-!
# Verification of the agent-primer primitive discovery/selection/cache pipeline

A shallow embedding, in Lean 4, of the core of the `agent-primer` command-line
launcher: the recency cache (`src/cache.ts`), primitive discovery and parsing
(`src/types.ts` second half, i.e. the skill primitive, and
`src/primitives/domain.ts`), the prompt formatter, and the launch step of the
orchestrator (`index.ts`).

Modelling conventions:
* JavaScript objects used as string-keyed maps are modelled as insertion-ordered
  association lists (`List (String × _)`); property assignment keeps the
  position of an existing key and appends a fresh key, matching JS object
  semantics for non-index keys (all keys here contain `:` or are identifiers).
* JS numbers are modelled as `Rat` (exact arithmetic; no claim under
  verification depends on floating-point rounding).
* `Array.prototype.sort(cmp)` is stable (ECMA-262); it is modelled as a stable
  insertion sort ordered by `le a b := cmp a b ≤ 0`, which is extensionally the
  unique stable sort for a total-preorder comparator.
* `String.prototype.localeCompare` is modelled as code-unit lexicographic
  comparison (it agrees with it on the ASCII names used in the claims).
* Filesystem and library effects (`node:fs`, `gray-matter`) are modelled by an
  explicit environment record of pure functions.
-/

namespace AgentPrimer

/-! ## Stable insertion sort with a Bool comparator

Models JavaScript `Array.prototype.sort` with a consistent comparator:
`le a b` means "a may come before b", i.e. `comparator a b ≤ 0`. -/

def orderedInsertB {α : Type} (le : α → α → Bool) (a : α) : List α → List α
  | [] => [a]
  | b :: l => if le a b then a :: b :: l else b :: orderedInsertB le a l

def insertionSortB {α : Type} (le : α → α → Bool) : List α → List α
  | [] => []
  | b :: l => orderedInsertB le b (insertionSortB le l)

theorem perm_orderedInsertB {α : Type} (le : α → α → Bool) (a : α) (l : List α) :
    (orderedInsertB le a l).Perm (a :: l) := by
  induction l with
  | nil => exact List.Perm.refl _
  | cons b l ih =>
    simp only [orderedInsertB]
    by_cases h : le a b = true
    · simp [h]
    · simp only [h, if_neg]
      exact (ih.cons b).trans (List.Perm.swap a b l)

theorem mem_orderedInsertB {α : Type} (le : α → α → Bool) (a x : α) (l : List α) :
    x ∈ orderedInsertB le a l ↔ x = a ∨ x ∈ l := by
  rw [(perm_orderedInsertB le a l).mem_iff]
  simp

theorem perm_insertionSortB {α : Type} (le : α → α → Bool) (l : List α) :
    (insertionSortB le l).Perm l := by
  induction l with
  | nil => exact List.Perm.refl _
  | cons b l ih =>
    exact (perm_orderedInsertB le b (insertionSortB le l)).trans (ih.cons b)

theorem pairwise_orderedInsertB {α : Type} (le : α → α → Bool)
    (htot : ∀ a b, le a b = true ∨ le b a = true)
    (htrans : ∀ a b c, le a b = true → le b c = true → le a c = true)
    (a : α) (l : List α) (h : l.Pairwise (le · · = true)) :
    (orderedInsertB le a l).Pairwise (le · · = true) := by
  induction l with
  | nil => simp [orderedInsertB]
  | cons b l ih =>
    rw [List.pairwise_cons] at h
    obtain ⟨hb, hl⟩ := h
    simp only [orderedInsertB]
    by_cases hab : le a b = true
    · simp only [hab, if_pos, List.pairwise_cons]
      refine ⟨?_, ?_, hl⟩
      · intro x hx
        rcases List.mem_cons.mp hx with rfl | hx
        · exact hab
        · exact htrans a b x hab (hb x hx)
      · exact hb
    · have hba : le b a = true := (htot a b).resolve_left hab
      simp only [hab, if_neg, List.pairwise_cons, Bool.false_eq_true,
        not_false_iff]
      refine ⟨?_, ih hl⟩
      intro x hx
      rcases (mem_orderedInsertB le a x l).mp hx with rfl | hx
      · exact hba
      · exact hb x hx

theorem pairwise_insertionSortB {α : Type} (le : α → α → Bool)
    (htot : ∀ a b, le a b = true ∨ le b a = true)
    (htrans : ∀ a b c, le a b = true → le b c = true → le a c = true)
    (l : List α) : (insertionSortB le l).Pairwise (le · · = true) := by
  induction l with
  | nil => simp [insertionSortB]
  | cons b l ih => exact pairwise_orderedInsertB le htot htrans b _ ih

theorem pairwise_take_drop {α : Type} {R : α → α → Prop} {s : List α} (n : Nat)
    (h : s.Pairwise R) : ∀ x ∈ s.take n, ∀ y ∈ s.drop n, R x y := by
  have h2 : (s.take n ++ s.drop n).Pairwise R := by
    rwa [List.take_append_drop]
  exact (List.pairwise_append.mp h2).2.2

/-! ## Data model (`src/types.ts`) -/

/-- The `source` enum: `z.enum(["global", "local"])`. The constructor for
"local" is spelled `localSrc` because `local` is a Lean keyword. -/
inductive Source : Type
  | global : Source
  | localSrc : Source
deriving DecidableEq, Repr

def Source.str : Source → String
  | .global => "global"
  | .localSrc => "local"

/-- `PrimitiveItemSchema`: type, name, description, path, source. -/
structure PrimitiveItem : Type where
  type : String
  name : String
  description : String
  path : String
  source : Source
deriving DecidableEq, Repr

/-! ## Recency cache (`src/cache.ts`) -/

/-- The contents of the `recent` field of `RecentCache`
(`z.record(z.string(), z.number())`): a JS object mapping cache keys to
timestamps, modelled as an insertion-ordered association list. -/
abbrev RecentMap : Type := List (String × Rat)

def MAX_RECENT : Nat := 10

/-- `cacheKey(item)` = `` `${item.type}:${item.source}:${item.name}` ``. -/
def cacheKey (item : PrimitiveItem) : String :=
  item.type ++ ":" ++ item.source.str ++ ":" ++ item.name

/-- JS property assignment `obj[k] = v` on a string-keyed object: an existing
key keeps its position and gets the new value; a fresh key is appended. -/
def setKey (m : RecentMap) (k : String) (v : Rat) : RecentMap :=
  if m.any (fun e => e.1 == k) then
    m.map (fun e => if e.1 == k then (e.1, v) else e)
  else m ++ [(k, v)]

/-- `cache.recent[cacheKey(x)] || 0`: a missing entry reads as `undefined` and
a stored `0` is falsy, so both produce `0`. -/
def lookupTime (m : RecentMap) (k : String) : Rat :=
  (m.lookup k).getD 0

/-- The prune comparator `(a, b) => b[1] - a[1]` of `updateCache`, as the
"may come before" relation `cmp a b ≤ 0`, i.e. `b.2 ≤ a.2`. -/
def entryLE (a b : String × Rat) : Bool :=
  decide (b.2 ≤ a.2)

/-- `updateCache(items)` (src/cache.ts:43-59) acting on the in-memory map:
set `recent[cacheKey(item)] = now` for every item, then if more than
`MAX_RECENT` entries remain, sort by timestamp descending (stably) and keep
the first `MAX_RECENT`.  The result is what `saveCache` persists. -/
def updateCache (items : List PrimitiveItem) (now : Rat) (m : RecentMap) :
    RecentMap :=
  let m2 := items.foldl (fun acc it => setKey acc (cacheKey it) now) m
  if MAX_RECENT < m2.length then (insertionSortB entryLE m2).take MAX_RECENT
  else m2

/-- Code-unit lexicographic "less or equal", modelling
`a.localeCompare(b) <= 0` (locale-awareness is modelled as code-unit order;
the two agree on ASCII names). -/
def lexLE : List Char → List Char → Bool
  | [], _ => true
  | _ :: _, [] => false
  | c :: cs, d :: ds =>
    if c.toNat < d.toNat then true
    else if d.toNat < c.toNat then false
    else lexLE cs ds

def strLE (a b : String) : Bool := lexLE a.data b.data

theorem lexLE_total : ∀ a b, lexLE a b = true ∨ lexLE b a = true := by
  intro a
  induction a with
  | nil => intro b; left; rfl
  | cons c cs ih =>
    intro b
    cases b with
    | nil => right; rfl
    | cons d ds =>
      simp only [lexLE]
      rcases Nat.lt_trichotomy c.toNat d.toNat with h | h | h
      · left; simp [h]
      · have h1 : ¬ c.toNat < d.toNat := by omega
        have h2 : ¬ d.toNat < c.toNat := by omega
        rcases ih ds with hcd | hdc
        · left; simp [h1, h2, hcd]
        · right; simp [h1, h2, hdc]
      · right; simp [h, Nat.lt_asymm h]

theorem lexLE_trans :
    ∀ a b c, lexLE a b = true → lexLE b c = true → lexLE a c = true := by
  intro a
  induction a with
  | nil => intro b c _ _; rfl
  | cons x xs ih =>
    intro b c hab hbc
    cases b with
    | nil => simp [lexLE] at hab
    | cons y ys =>
      cases c with
      | nil => simp [lexLE] at hbc
      | cons z zs =>
        simp only [lexLE] at hab hbc ⊢
        by_cases hxy : x.toNat < y.toNat
        · by_cases hyz : y.toNat < z.toNat
          · rw [if_pos (show x.toNat < z.toNat by omega)]
          · rw [if_neg hyz] at hbc
            by_cases hzy : z.toNat < y.toNat
            · rw [if_pos hzy] at hbc; exact absurd hbc (by simp)
            · rw [if_pos (show x.toNat < z.toNat by omega)]
        · rw [if_neg hxy] at hab
          by_cases hyx : y.toNat < x.toNat
          · rw [if_pos hyx] at hab; exact absurd hab (by simp)
          · rw [if_neg hyx] at hab
            by_cases hyz : y.toNat < z.toNat
            · rw [if_pos (show x.toNat < z.toNat by omega)]
            · rw [if_neg hyz] at hbc
              by_cases hzy : z.toNat < y.toNat
              · rw [if_pos hzy] at hbc; exact absurd hbc (by simp)
              · rw [if_neg hzy] at hbc
                rw [if_neg (show ¬ x.toNat < z.toNat by omega),
                  if_neg (show ¬ z.toNat < x.toNat by omega)]
                exact ih ys zs hab hbc

theorem strLE_total (a b : String) : strLE a b = true ∨ strLE b a = true :=
  lexLE_total a.data b.data

theorem strLE_trans (a b c : String) :
    strLE a b = true → strLE b c = true → strLE a c = true :=
  lexLE_trans a.data b.data c.data

/-- The comparator of `sortByRecent` (src/cache.ts:65-70), as the
"may come before" relation `cmp a b ≤ 0`: when the two looked-up timestamps
differ, `bTime - aTime ≤ 0` i.e. `bTime < aTime`; on a tie,
`a.name.localeCompare(b.name) ≤ 0`. -/
def recentLE (m : RecentMap) (a b : PrimitiveItem) : Bool :=
  let aT := lookupTime m (cacheKey a)
  let bT := lookupTime m (cacheKey b)
  if aT = bT then strLE a.name b.name else decide (bT < aT)

/-- `sortByRecent(items, cache)` (src/cache.ts:61-71): `[...items].sort(cmp)`,
a stable sort of a copy of the input. -/
def sortByRecent (items : List PrimitiveItem) (m : RecentMap) :
    List PrimitiveItem :=
  insertionSortB (recentLE m) items

theorem recentLE_total (m : RecentMap) (a b : PrimitiveItem) :
    recentLE m a b = true ∨ recentLE m b a = true := by
  simp only [recentLE]
  by_cases h : lookupTime m (cacheKey a) = lookupTime m (cacheKey b)
  · rw [if_pos h, if_pos h.symm]
    exact strLE_total a.name b.name
  · rw [if_neg h, if_neg (fun hh => h hh.symm)]
    rcases lt_or_gt_of_ne h with hlt | hgt
    · right; exact decide_eq_true hlt
    · left; exact decide_eq_true hgt

theorem recentLE_trans (m : RecentMap) (a b c : PrimitiveItem) :
    recentLE m a b = true → recentLE m b c = true → recentLE m a c = true := by
  intro hab hbc
  simp only [recentLE] at hab hbc ⊢
  by_cases h1 : lookupTime m (cacheKey a) = lookupTime m (cacheKey b)
  · by_cases h2 : lookupTime m (cacheKey b) = lookupTime m (cacheKey c)
    · rw [if_pos h1] at hab
      rw [if_pos h2] at hbc
      rw [if_pos (h1.trans h2)]
      exact strLE_trans a.name b.name c.name hab hbc
    · rw [if_neg h2] at hbc
      rw [if_neg
        (show ¬ lookupTime m (cacheKey a) = lookupTime m (cacheKey c) from
          fun h => h2 (h1.symm.trans h))]
      rw [h1]
      exact hbc
  · rw [if_neg h1] at hab
    have hab' : lookupTime m (cacheKey b) < lookupTime m (cacheKey a) :=
      of_decide_eq_true hab
    by_cases h2 : lookupTime m (cacheKey b) = lookupTime m (cacheKey c)
    · rw [if_neg
        (show ¬ lookupTime m (cacheKey a) = lookupTime m (cacheKey c) from
          fun h => h1 (h.trans h2.symm))]
      exact decide_eq_true (h2 ▸ hab')
    · rw [if_neg h2] at hbc
      have hbc' : lookupTime m (cacheKey c) < lookupTime m (cacheKey b) :=
        of_decide_eq_true hbc
      have h4 : lookupTime m (cacheKey c) < lookupTime m (cacheKey a) :=
        lt_trans hbc' hab'
      rw [if_neg
        (show ¬ lookupTime m (cacheKey a) = lookupTime m (cacheKey c) from
          fun h => absurd (h ▸ h4) (lt_irrefl _))]
      exact decide_eq_true h4

theorem entryLE_total (a b : String × Rat) :
    entryLE a b = true ∨ entryLE b a = true := by
  simp only [entryLE, decide_eq_true_eq]
  rcases le_total b.2 a.2 with h | h
  · left; exact h
  · right; exact h

theorem entryLE_trans (a b c : String × Rat) :
    entryLE a b = true → entryLE b c = true → entryLE a c = true := by
  simp only [entryLE, decide_eq_true_eq]
  intro h1 h2
  exact le_trans h2 h1

/-- `clearCache()` (src/cache.ts:73-79).  `fileExists` models
`existsSync(CACHE_FILE)`; `unlinkOk` models whether `unlinkSync` succeeds.
The function body has no try/catch, so an `unlinkSync` failure escapes as an
exception (`Except.error`).  On success the result pairs the returned Bool
with whether the file still exists afterwards. -/
def clearCache (fileExists : Bool) (unlinkOk : Bool) :
    Except Unit (Bool × Bool) :=
  if fileExists then
    if unlinkOk then .ok (true, false) else .error ()
  else .ok (false, fileExists)

/-! ## JSON values and a parser, modelling `JSON.parse`

`loadCache` runs `JSON.parse` on the file contents and validates the result
against `RecentCacheSchema`.  JSON numbers are modelled as exact rationals
(claims under verification do not depend on IEEE-754 rounding). -/

inductive Json : Type
  | null : Json
  | bool (b : Bool) : Json
  | num (q : Rat) : Json
  | str (s : String) : Json
  | arr (elems : List Json) : Json
  | obj (fields : List (String × Json)) : Json
deriving Repr

def quoteChar : Char := Char.ofNat 34

def lbrace : Char := Char.ofNat 123

def rbrace : Char := Char.ofNat 125

def isJsonWs (c : Char) : Bool :=
  c = ' ' || c = Char.ofNat 9 || c = Char.ofNat 10 || c = Char.ofNat 13

def skipWs : List Char → List Char
  | [] => []
  | c :: cs => if isJsonWs c then skipWs cs else c :: cs

def digitVal (c : Char) : Option Nat :=
  if 48 ≤ c.toNat && c.toNat ≤ 57 then some (c.toNat - 48) else none

def hexVal (c : Char) : Option Nat :=
  if 48 ≤ c.toNat && c.toNat ≤ 57 then some (c.toNat - 48)
  else if 97 ≤ c.toNat && c.toNat ≤ 102 then some (c.toNat - 87)
  else if 65 ≤ c.toNat && c.toNat ≤ 70 then some (c.toNat - 55)
  else none

/-- Single-character JSON string escapes. -/
def escChar (c : Char) : Option Char :=
  if c = quoteChar then some quoteChar
  else if c = '\\' then some '\\'
  else if c = '/' then some '/'
  else if c = 'b' then some (Char.ofNat 8)
  else if c = 'f' then some (Char.ofNat 12)
  else if c = 'n' then some (Char.ofNat 10)
  else if c = 'r' then some (Char.ofNat 13)
  else if c = 't' then some (Char.ofNat 9)
  else none

/-- Parse the body of a JSON string after the opening quote; returns the
decoded characters and the remaining input after the closing quote.
(Code points from `\uXXXX` escapes go through `Char.ofNat`; unpaired
surrogates, which `Char` cannot represent, decode to the `Char.ofNat`
default.) -/
def parseStringBody : List Char → Option (List Char × List Char)
  | [] => none
  | c :: cs =>
    if c = quoteChar then some ([], cs)
    else if c = '\\' then
      match cs with
      | [] => none
      | 'u' :: h1 :: h2 :: h3 :: h4 :: rest =>
        match hexVal h1, hexVal h2, hexVal h3, hexVal h4 with
        | some a, some b, some c2, some d =>
          match parseStringBody rest with
          | some (s, r) => some (Char.ofNat (((a * 16 + b) * 16 + c2) * 16 + d) :: s, r)
          | none => none
        | _, _, _, _ => none
      | 'u' :: _ => none
      | e :: cs2 =>
        match escChar e with
        | some ch =>
          match parseStringBody cs2 with
          | some (s, r) => some (ch :: s, r)
          | none => none
        | none => none
    else if c.toNat < 32 then none
    else
      match parseStringBody cs with
      | some (s, r) => some (c :: s, r)
      | none => none

/-- Accumulate a run of decimal digits: returns (value, digit count, rest). -/
def parseDigitsAux (acc : Nat) (count : Nat) : List Char → Nat × Nat × List Char
  | [] => (acc, count, [])
  | c :: cs =>
    match digitVal c with
    | some d => parseDigitsAux (acc * 10 + d) (count + 1) cs
    | none => (acc, count, c :: cs)

/-- Optional fraction part `.digits`; `none` means a syntax error
(a dot with no digits). -/
def parseFracPart : List Char → Option (Nat × Nat × List Char)
  | '.' :: r =>
    match parseDigitsAux 0 0 r with
    | (v, cnt, rest) => if cnt = 0 then none else some (v, cnt, rest)
  | cs => some (0, 0, cs)

/-- Optional exponent part `e|E (+|-)? digits`; `none` means a syntax error. -/
def parseExpPart : List Char → Option (Int × List Char)
  | [] => some (0, [])
  | c :: r =>
    if c = 'e' || c = 'E' then
      let signAndRest : Int × List Char :=
        match r with
        | s :: r2 => if s = '+' then (1, r2) else if s = '-' then (-1, r2) else (1, r)
        | [] => (1, r)
      match parseDigitsAux 0 0 signAndRest.2 with
      | (ev, ecnt, rest) =>
        if ecnt = 0 then none else some (signAndRest.1 * ev, rest)
    else some (0, c :: r)

/-- A JSON number: `-? int frac? exp?` with the JSON leading-zero rule. -/
def parseNumber (cs : List Char) : Option (Rat × List Char) :=
  let negAndRest : Bool × List Char :=
    match cs with
    | c :: r => if c = '-' then (true, r) else (false, cs)
    | [] => (false, cs)
  let cs1 := negAndRest.2
  let leadingOk : Bool :=
    match cs1 with
    | c0 :: c1 :: _ => !(c0 = '0' && (digitVal c1).isSome)
    | _ => true
  match parseDigitsAux 0 0 cs1 with
  | (ival, icount, cs2) =>
    if icount = 0 || !leadingOk then none
    else
      match parseFracPart cs2 with
      | none => none
      | some (fval, fcnt, cs3) =>
        match parseExpPart cs3 with
        | none => none
        | some (e, cs4) =>
          let mant : Int :=
            (if negAndRest.1 then -1 else 1) * ((ival * 10 ^ fcnt + fval : Nat) : Int)
          let exp : Int := e - (fcnt : Int)
          let q : Rat :=
            if 0 ≤ exp then Rat.ofInt (mant * 10 ^ exp.toNat)
            else mkRat mant (10 ^ (-exp).toNat)
          some (q, cs4)

/-- JS object-literal field insertion during `JSON.parse`: a duplicate key
overwrites the value but keeps the first occurrence's position. -/
def setField (fields : List (String × Json)) (k : String) (v : Json) :
    List (String × Json) :=
  if fields.any (fun e => e.1 == k) then
    fields.map (fun e => if e.1 == k then (e.1, v) else e)
  else fields ++ [(k, v)]

mutual

/-- Parse one JSON value.  `fuel` bounds recursion depth; `parseJson` supplies
`length + 1`, which is sufficient since every recursive call consumes at
least one input character. -/
def parseValue : Nat → List Char → Option (Json × List Char)
  | 0, _ => none
  | fuel + 1, cs =>
    match skipWs cs with
    | [] => none
    | c :: rest =>
      if c = quoteChar then
        match parseStringBody rest with
        | some (s, r) => some (.str (String.mk s), r)
        | none => none
      else if c = lbrace then parseObjectRest fuel [] rest true
      else if c = '[' then parseArrayRest fuel [] rest true
      else if c = 't' then
        match rest with
        | 'r' :: 'u' :: 'e' :: r => some (.bool true, r)
        | _ => none
      else if c = 'f' then
        match rest with
        | 'a' :: 'l' :: 's' :: 'e' :: r => some (.bool false, r)
        | _ => none
      else if c = 'n' then
        match rest with
        | 'u' :: 'l' :: 'l' :: r => some (.null, r)
        | _ => none
      else
        match parseNumber (c :: rest) with
        | some (q, r) => some (.num q, r)
        | none => none

/-- Parse object members; `first` is true just after the opening brace, where
a closing brace (empty object) is allowed. -/
def parseObjectRest : Nat → List (String × Json) → List Char → Bool →
    Option (Json × List Char)
  | 0, _, _, _ => none
  | fuel + 1, acc, cs, first =>
    match skipWs cs with
    | [] => none
    | c :: rest =>
      if c = rbrace && first then some (.obj acc, rest)
      else if c = quoteChar then
        match parseStringBody rest with
        | none => none
        | some (k, r1) =>
          match skipWs r1 with
          | ':' :: r2 =>
            match parseValue fuel r2 with
            | none => none
            | some (v, r3) =>
              let acc2 := setField acc (String.mk k) v
              match skipWs r3 with
              | ',' :: r4 => parseObjectRest fuel acc2 r4 false
              | c2 :: r4 => if c2 = rbrace then some (.obj acc2, r4) else none
              | [] => none
          | _ => none
      else none

/-- Parse array elements; `first` is true just after the opening bracket. -/
def parseArrayRest : Nat → List Json → List Char → Bool →
    Option (Json × List Char)
  | 0, _, _, _ => none
  | fuel + 1, acc, cs, first =>
    match skipWs cs with
    | [] => none
    | c :: rest =>
      if c = ']' && first then some (.arr acc.reverse, rest)
      else
        match parseValue fuel (c :: rest) with
        | none => none
        | some (v, r1) =>
          match skipWs r1 with
          | ',' :: r2 => parseArrayRest fuel (v :: acc) r2 false
          | c2 :: r2 => if c2 = ']' then some (.arr (v :: acc).reverse, r2) else none
          | [] => none

end

/-- `JSON.parse`: parse one value and require only whitespace to remain. -/
def parseJson (s : String) : Option Json :=
  match parseValue (s.data.length + 1) s.data with
  | some (v, rest) => if skipWs rest = [] then some v else none
  | none => none

/-- `z.record(z.string(), z.number())`: a plain object whose values are all
numbers. -/
def validateRecentMap : Json → Option RecentMap
  | .obj fields =>
    fields.mapM (fun kv =>
      match kv.2 with
      | .num q => some (kv.1, q)
      | _ => none)
  | _ => none

/-- `RecentCacheSchema.safeParse`: `z.object({ recent: record })` — requires a
plain object with a `recent` field validating as a number record (unknown
keys are stripped). -/
def validateRecentCache : Json → Option RecentMap
  | .obj fields =>
    match fields.lookup "recent" with
    | some r => validateRecentMap r
    | none => none
  | _ => none

/-- The observable state of the cache file for `loadCache`: absent, present
but unreadable (`readFileSync` throws), or present with given contents. -/
inductive FileState : Type
  | missing : FileState
  | unreadable : FileState
  | content (s : String) : FileState

/-- `loadCache()` (src/cache.ts:21-32): returns the validated `recent` map,
or the empty map on a missing file, an unreadable file, a `JSON.parse`
failure, or a schema mismatch.  Total by construction — the try/catch means
no input can make it throw. -/
def loadCache : FileState → RecentMap
  | .missing => []
  | .unreadable => []
  | .content s =>
    match parseJson s with
    | none => []
    | some j => (validateRecentCache j).getD []

/-! ## Path helpers (POSIX `node:path` semantics for the paths in use:
no trailing slashes, no `.`/`..` normalization needed) -/

/-- `path.join(a, b)` for the well-formed path prefixes used here. -/
def joinPath (a b : String) : String :=
  if a = "" then b
  else if a.data.getLast? = some '/' then a ++ b
  else a ++ "/" ++ b

/-- Split on `/`, like `"a/b".split("/")`; `splitOnSlash [] = [[]]`. -/
def splitOnSlash : List Char → List (List Char)
  | [] => [[]]
  | c :: cs =>
    let rest := splitOnSlash cs
    if c = '/' then [] :: rest
    else
      match rest with
      | r :: rs => (c :: r) :: rs
      | [] => [[c]]

def joinParts : List (List Char) → List Char
  | [] => []
  | [x] => x
  | x :: xs => x ++ '/' :: joinParts xs

/-- `path.dirname`: drop the last `/`-separated component; `"."` when there
is no slash; `"/"` when only the leading slash remains. -/
def dirname (p : String) : String :=
  let parts := splitOnSlash p.data
  if parts.length ≤ 1 then "."
  else
    let d := joinParts parts.dropLast
    if d = [] then "/" else String.mk d

/-- `path.basename`: the last `/`-separated component (`""` for `"/"`). -/
def basename (p : String) : String :=
  match (splitOnSlash p.data).getLast? with
  | some s => String.mk s
  | none => ""

/-! ## Discovery environment

The filesystem and library calls made by discovery and parsing
(`node:fs`, `node:os`, `node:path`, `gray-matter`), as a record of pure
functions.  Quantifying over `Env` quantifies over all filesystem shapes and
all front-matter parser behaviours. -/

structure DirEntry : Type where
  name : String
  isSymbolicLink : Bool
deriving DecidableEq, Repr

structure Env : Type where
  /-- `existsSync` -/
  pathExists : String → Bool
  /-- `readdirSync(dir, { withFileTypes: true })` -/
  entries : String → List DirEntry
  /-- `realpathSync`; `none` models a thrown error (dangling link) -/
  realpath : String → Option String
  /-- `statSync(p, { throwIfNoEntry: false })`: `none` = no entry,
  `some b` = entry with `isDirectory() = b` -/
  statIsDir : String → Option Bool
  /-- `readFileSync(p, "utf-8")`; `none` models a thrown error -/
  readFile : String → Option String
  /-- `matter(content).data`; `none` models a thrown error -/
  matterData : String → Option Json
  /-- `homedir()` -/
  homedir : String
  /-- `process.cwd()` -/
  cwd : String
  /-- `path.resolve` -/
  resolve : String → String

def GLOBAL_SKILLS_DIR (env : Env) : String :=
  joinPath (joinPath env.homedir ".claude") "skills"

def LOCAL_SKILLS_DIR (env : Env) : String :=
  joinPath (joinPath env.cwd ".claude") "skills"

def GLOBAL_DOMAINS_DIR (env : Env) : String :=
  joinPath (joinPath env.homedir ".claude") "domains"

def LOCAL_DOMAINS_DIR (env : Env) : String :=
  joinPath (joinPath env.cwd ".claude") "domains"

/-- The loop body of `discoverSkillPaths` for one directory entry: the path
it records, if any. -/
def skillEntryPath (env : Env) (dir : String) (entry : DirEntry) :
    Option String :=
  let fullPath := joinPath dir entry.name
  let realPathRes :=
    if entry.isSymbolicLink then env.realpath fullPath else some fullPath
  match realPathRes with
  | none => none
  | some realPath =>
    match env.statIsDir realPath with
    | some true =>
      let skillFile := joinPath realPath "SKILL.md"
      if env.pathExists skillFile then some skillFile else none
    | _ => if entry.name = "SKILL.md" then some fullPath else none

/-- `discoverSkillPaths(dir)` (src/types.ts side of skill.ts:119-149). -/
def discoverSkillPaths (env : Env) (dir : String) : List String :=
  if env.pathExists dir then
    (env.entries dir).filterMap (skillEntryPath env dir)
  else []

/-- The loop body of `discoverDomainPaths` for one directory entry. -/
def domainEntryPath (env : Env) (dir : String) (entry : DirEntry) :
    Option String :=
  let fullPath := joinPath dir entry.name
  let realPathRes :=
    if entry.isSymbolicLink then env.realpath fullPath else some fullPath
  match realPathRes with
  | none => none
  | some realPath =>
    match env.statIsDir realPath with
    | some true =>
      let domainFile := joinPath realPath "DOMAIN.md"
      if env.pathExists domainFile then some domainFile else none
    | _ => if entry.name = "DOMAIN.md" then some fullPath else none

/-- `discoverDomainPaths(dir)` (src/primitives/domain.ts:36-66). -/
def discoverDomainPaths (env : Env) (dir : String) : List String :=
  if env.pathExists dir then
    (env.entries dir).filterMap (domainEntryPath env dir)
  else []

/-! ## Front-matter parsing and item construction -/

/-- The result of `SkillFrontmatterSchema` / `DomainFrontmatterSchema`
(identical schemas): two optional string fields. -/
structure Frontmatter : Type where
  nameField : Option String
  descriptionField : Option String

/-- An optional string field of a zod object: absent is fine, present
non-string fails the whole parse. -/
def optStrField (fields : List (String × Json)) (k : String) :
    Option (Option String) :=
  match fields.lookup k with
  | none => some none
  | some (.str s) => some (some s)
  | some _ => none

/-- `SkillFrontmatterSchema.safeParse` (= `DomainFrontmatterSchema`):
an object with optional string fields `name` and `description`
(unknown keys stripped); anything else fails. -/
def parseFrontmatter : Json → Option Frontmatter
  | .obj fields =>
    match optStrField fields "name", optStrField fields "description" with
    | some n, some d => some ⟨n, d⟩
    | _, _ => none
  | _ => none

/-- JS `x || fallback` for an optional string: `undefined` and `""` are both
falsy, so either takes the fallback. -/
def jsOrStr (o : Option String) (d : String) : String :=
  match o with
  | some s => if s = "" then d else s
  | none => d

/-- `parseSkill(skillPath, source)` (skill.ts:151-178): `none` models the
catch-and-return-null path (read or front-matter split threw). -/
def parseSkill (env : Env) (skillPath : String) (source : Source) :
    Option PrimitiveItem :=
  match env.readFile skillPath with
  | none => none
  | some content =>
    match env.matterData content with
    | none => none
    | some data =>
      let fm := (parseFrontmatter data).getD ⟨none, none⟩
      let skillDir := dirname skillPath
      let name := jsOrStr fm.nameField (basename skillDir)
      let description := jsOrStr fm.descriptionField "No description provided"
      some { type := "skill", name := name, description := description,
             path := skillPath, source := source }

/-- `parseDomain(domainPath, source)` (domain.ts:68-95). -/
def parseDomain (env : Env) (domainPath : String) (source : Source) :
    Option PrimitiveItem :=
  match env.readFile domainPath with
  | none => none
  | some content =>
    match env.matterData content with
    | none => none
    | some data =>
      let fm := (parseFrontmatter data).getD ⟨none, none⟩
      let domainDir := dirname domainPath
      let name := jsOrStr fm.nameField (basename domainDir)
      let description := jsOrStr fm.descriptionField "No description provided"
      some { type := "domain", name := name, description := description,
             path := domainPath, source := source }

/-- `SkillPrimitive.discoverItems()` (skill.ts:184-201): scan the global
root, then the local root unless it resolves to the same path as the global
root. -/
def skillDiscoverItems (env : Env) : List PrimitiveItem :=
  let globalItems :=
    (discoverSkillPaths env (GLOBAL_SKILLS_DIR env)).filterMap
      (fun p => parseSkill env p .global)
  let localItems :=
    if env.resolve (LOCAL_SKILLS_DIR env) ≠ env.resolve (GLOBAL_SKILLS_DIR env)
    then
      (discoverSkillPaths env (LOCAL_SKILLS_DIR env)).filterMap
        (fun p => parseSkill env p .localSrc)
    else []
  globalItems ++ localItems

/-- `DomainPrimitive.discoverItems()` (domain.ts:101-115): both roots are
scanned unconditionally. -/
def domainDiscoverItems (env : Env) : List PrimitiveItem :=
  (discoverDomainPaths env (GLOBAL_DOMAINS_DIR env)).filterMap
    (fun p => parseDomain env p .global) ++
  (discoverDomainPaths env (LOCAL_DOMAINS_DIR env)).filterMap
    (fun p => parseDomain env p .localSrc)

/-! ## Prompt formatting (`SkillPrimitive.formatForPrompt`, skill.ts:220-266)

The formatter is a pure function of its input sequence: the embedding makes
this literal (a Lean function has no side effects and is deterministic).
`SkillMetadataSchema.parse` throws on invalid metadata, modelled as
`Option.none`. -/

/-- `PrimitiveContentSchema`: the `metadata` field is an open
string-to-unknown record, modelled as a JSON value re-validated by the
formatter. -/
structure PrimitiveContent : Type where
  item : PrimitiveItem
  mainContent : String
  metadata : Json

/-- `SkillMetadataSchema.parse` (= `DomainMetadataSchema`): an object with a
`references` field holding an array of strings. -/
def validateSkillMetadata : Json → Option (List String)
  | .obj fields =>
    match fields.lookup "references" with
    | some (.arr xs) =>
      xs.mapM (fun x =>
        match x with
        | .str s => some s
        | _ => none)
    | _ => none
  | _ => none

/-- JS `Array.prototype.join(sep)`. -/
def joinWith (sep : String) : List String → String
  | [] => ""
  | [x] => x
  | x :: xs => x ++ sep ++ joinWith sep xs

def divider : String := String.mk (List.replicate 72 '=')

def thinDivider : String := String.mk (List.replicate 72 '-')

def skillHeader : String :=
  divider ++ "\nAGENT PRIMER: ACTIVE SKILLS FOR THIS SESSION\n" ++ divider ++
  "\n\nThe following skills were hand-picked for this session. They contain\nspecialized knowledge, patterns, and best practices that are directly\nrelevant to the work ahead. Treat these as authoritative guidance and\nfollow them when applicable to the user's request.\n\n" ++
  thinDivider

def skillFooter : String :=
  "\n\n" ++ divider ++ "\nEND AGENT PRIMER\n" ++ divider

/-- One skill section of the prompt (the `.map` body, skill.ts:236-258). -/
def skillSection (s : PrimitiveContent) : Option String :=
  let skillDir := dirname s.item.path
  match validateSkillMetadata s.metadata with
  | none => none
  | some references =>
    let text := "\n## " ++ s.item.name ++ "\n> Source: " ++ skillDir ++
      "\n\n" ++ s.mainContent
    let text2 :=
      if 0 < references.length then
        text ++ "\n\n### References bundled with " ++ s.item.name ++ ":\n" ++
          joinWith "\n" (references.map (fun r => "- " ++ r)) ++
          "\n\nUse Skill(" ++ s.item.name ++ ") to load any reference file."
      else text
    some text2

/-- `SkillPrimitive.formatForPrompt(contents)`. -/
def skillFormatForPrompt (contents : List PrimitiveContent) : Option String :=
  match contents.mapM skillSection with
  | none => none
  | some sections =>
    some (skillHeader ++ joinWith ("\n\n" ++ thinDivider) sections ++ skillFooter)

theorem isInfix_append_left {α : Type} {l s : List α} (t : List α)
    (h : l <:+: s) : l <:+: s ++ t :=
  h.trans ⟨[], t, by simp⟩

theorem isInfix_append_right {α : Type} {l t : List α} (s : List α)
    (h : l <:+: t) : l <:+: s ++ t :=
  h.trans ⟨s, [], by simp⟩

/-! ## The LAUNCH step of the orchestrator (`main`, index.ts:288-327)

Modelled as the sequence of externally visible effects the step performs
after the user confirms the selection.  `systemPrompt` abstracts the prompt
string assembled from the selected items (its construction is irrelevant to
the launch-step claim). -/

inductive LaunchEffect : Type
  | cacheUpdate (items : List PrimitiveItem) : LaunchEffect
  | spawnClaude (args : List String) : LaunchEffect
deriving DecidableEq, Repr

/-- index.ts:288-327: if no items were selected, spawn with only the
dangerous-mode args and the passthrough args (no cache update, no
`--append-system-prompt`); otherwise update the cache with the selected
items, then spawn with the prompt-injection flag. -/
def launchStep (selectedItems : List PrimitiveItem)
    (dangerousArgs claudeArgs : List String) (systemPrompt : String) :
    List LaunchEffect :=
  if selectedItems.length = 0 then
    [.spawnClaude (dangerousArgs ++ claudeArgs)]
  else
    [.cacheUpdate selectedItems,
     .spawnClaude (dangerousArgs ++ ["--append-system-prompt", systemPrompt] ++
       claudeArgs)]

/-- The cumulative effect of a launch's effects on the persisted recent map:
`cacheUpdate` applies `updateCache` at the current time, spawning does not
touch the cache. -/
def applyCacheEffects (effects : List LaunchEffect) (now : Rat)
    (m : RecentMap) : RecentMap :=
  effects.foldl (fun acc e =>
    match e with
    | .cacheUpdate items => updateCache items now acc
    | .spawnClaude _ => acc) m

/-! ## Concrete items and caches used by claim instances -/

def itemA : PrimitiveItem :=
  { type := "skill", name := "beta", description := "d", path := "/h/a/SKILL.md",
    source := .global }

def itemB : PrimitiveItem :=
  { type := "skill", name := "gamma", description := "d", path := "/h/b/SKILL.md",
    source := .global }

def itemC : PrimitiveItem :=
  { type := "skill", name := "alpha", description := "d", path := "/h/c/SKILL.md",
    source := .global }

/-- A and C both cached with timestamp 5000; B has no entry. -/
def exCache : RecentMap :=
  [("skill:global:beta", 5000), ("skill:global:alpha", 5000)]

/-- An 11-entry prior cache state, exceeding `MAX_RECENT`. -/
def bigCache : RecentMap :=
  [("k1", 1), ("k2", 2), ("k3", 3), ("k4", 4), ("k5", 5), ("k6", 6),
   ("k7", 7), ("k8", 8), ("k9", 9), ("k10", 10), ("k11", 11)]

/-! ## Helper lemmas about parsing -/

theorem parseSkill_source (env : Env) (p : String) (s : Source)
    (it : PrimitiveItem) (h : parseSkill env p s = some it) : it.source = s := by
  simp only [parseSkill] at h
  split at h
  · exact absurd h (by simp)
  · split at h
    · exact absurd h (by simp)
    · have h2 := Option.some.inj h
      subst h2
      rfl

theorem parseDomain_source (env : Env) (p : String) (s : Source)
    (it : PrimitiveItem) (h : parseDomain env p s = some it) : it.source = s := by
  simp only [parseDomain] at h
  split at h
  · exact absurd h (by simp)
  · split at h
    · exact absurd h (by simp)
    · have h2 := Option.some.inj h
      subst h2
      rfl

theorem jsOrStr_ne_empty (o : Option String) (d : String) (hd : d ≠ "") :
    jsOrStr o d ≠ "" := by
  match o with
  | none => exact hd
  | some s =>
    simp only [jsOrStr]
    by_cases hs : s = ""
    · rw [if_pos hs]; exact hd
    · rw [if_neg hs]; exact hs

/-- `jsOrStr o d` is empty only when the fallback `d` is empty and the
option was falsy (absent or the blank string). -/
theorem jsOrStr_eq_empty (o : Option String) (d : String)
    (h : jsOrStr o d = "") : d = "" ∧ (o = none ∨ o = some "") := by
  match o with
  | none => exact ⟨h, Or.inl rfl⟩
  | some s =>
    simp only [jsOrStr] at h
    by_cases hs : s = ""
    · rw [if_pos hs] at h
      exact ⟨h, Or.inr (by rw [hs])⟩
    · rw [if_neg hs] at h
      exact absurd h hs

/-! ## Concrete environments used by claim instances -/

/-- A root directory `root` containing a plain file entry `SKILL.md`. -/
def c4env : Env :=
  { pathExists := fun p => p == "root"
    entries := fun p => if p == "root" then [⟨"SKILL.md", false⟩] else []
    realpath := fun _ => none
    statIsDir := fun p => if p == "root/SKILL.md" then some false else none
    readFile := fun _ => none
    matterData := fun _ => none
    homedir := "/h"
    cwd := "/c"
    resolve := fun p => p }

/-- home == cwd == `/h`; one global skill folder `s` with a readable
`SKILL.md` and empty front matter. -/
def c5env : Env :=
  { pathExists := fun p =>
      p == "/h/.claude/skills" || p == "/h/.claude/skills/s/SKILL.md"
    entries := fun p => if p == "/h/.claude/skills" then [⟨"s", false⟩] else []
    realpath := fun _ => none
    statIsDir := fun p => if p == "/h/.claude/skills/s" then some true else none
    readFile := fun p =>
      if p == "/h/.claude/skills/s/SKILL.md" then some "body" else none
    matterData := fun _ => some (.obj [])
    homedir := "/h"
    cwd := "/h"
    resolve := fun p => p }

/-- The global skills root contains a symbolic link resolving to the
filesystem root `/`, and `/SKILL.md` exists and parses with empty front
matter.  `realpathSync` can return `/` on a real system, and
`path.basename("/")` is `""`. -/
def c6env : Env :=
  { pathExists := fun p => p == "/h/.claude/skills" || p == "/SKILL.md"
    entries := fun p => if p == "/h/.claude/skills" then [⟨"lnk", true⟩] else []
    realpath := fun p => if p == "/h/.claude/skills/lnk" then some "/" else none
    statIsDir := fun p => if p == "/" then some true else none
    readFile := fun p => if p == "/SKILL.md" then some "body" else none
    matterData := fun _ => some (.obj [])
    homedir := "/h"
    cwd := "/c"
    resolve := fun p => p }

/-- Environment for instantiating the amended C6: any readable file with
empty front matter. -/
def c6wenv : Env :=
  { pathExists := fun _ => false
    entries := fun _ => []
    realpath := fun _ => none
    statIsDir := fun _ => none
    readFile := fun _ => some "body"
    matterData := fun _ => some (.obj [])
    homedir := "/h"
    cwd := "/c"
    resolve := fun p => p }

/-- The item parsed from `/h/.claude/skills/s/SKILL.md` with empty front
matter. -/
def sItem : PrimitiveItem :=
  { type := "skill", name := "s", description := "No description provided",
    path := "/h/.claude/skills/s/SKILL.md", source := .global }

def dItem : PrimitiveItem :=
  { type := "domain", name := "s", description := "No description provided",
    path := "/h/.claude/skills/s/SKILL.md", source := .global }

/-- The empty-named item parsed from `/SKILL.md` in `c6env`. -/
def rootItem : PrimitiveItem :=
  { type := "skill", name := "", description := "No description provided",
    path := "/SKILL.md", source := .global }

/-! ## Claim theorems: discovery -/

/-- C4: an entry of a scanned root whose resolved target is a plain file
(`statIsDir = some false`) and whose entry name is exactly the required
filename is recorded (at the entry's own path under the root), including
when the entry is a symbolic link that resolves to such a file — the
required file may sit directly at the scanned root. -/
theorem discover_records_root_file
    (env : Env) (dir : String) (entry : DirEntry) (rp : String)
    (hmem : entry ∈ env.entries dir)
    (hdir : env.pathExists dir = true)
    (hres : (if entry.isSymbolicLink then env.realpath (joinPath dir entry.name)
             else some (joinPath dir entry.name)) = some rp)
    (hstat : env.statIsDir rp = some false) :
    (entry.name = "SKILL.md" →
      joinPath dir entry.name ∈ discoverSkillPaths env dir) ∧
    (entry.name = "DOMAIN.md" →
      joinPath dir entry.name ∈ discoverDomainPaths env dir) := by
  constructor
  · intro hname
    simp only [discoverSkillPaths, if_pos hdir]
    refine List.mem_filterMap.mpr ⟨entry, hmem, ?_⟩
    simp only [skillEntryPath, hres, hstat, if_pos hname]
  · intro hname
    simp only [discoverDomainPaths, if_pos hdir]
    refine List.mem_filterMap.mpr ⟨entry, hmem, ?_⟩
    simp only [domainEntryPath, hres, hstat, if_pos hname]

theorem discover_records_root_file_witness :
    "root/SKILL.md" ∈ discoverSkillPaths c4env "root" :=
  (discover_records_root_file c4env "root" ⟨"SKILL.md", false⟩ "root/SKILL.md"
    (by decide) (by decide) (by decide) (by decide)).1 rfl

/-- C5: when the local skills root resolves to the same path as the global
one, the local scan is skipped — `discoverItems` equals the global scan
alone and every produced item is global-sourced; domains scan both roots
unconditionally. -/
theorem skill_dedup_scan_domains_unconditional (env : Env) :
    (env.resolve (LOCAL_SKILLS_DIR env) = env.resolve (GLOBAL_SKILLS_DIR env) →
      skillDiscoverItems env =
        (discoverSkillPaths env (GLOBAL_SKILLS_DIR env)).filterMap
          (fun p => parseSkill env p .global) ∧
      ∀ it ∈ skillDiscoverItems env, it.source = .global) ∧
    domainDiscoverItems env =
      (discoverDomainPaths env (GLOBAL_DOMAINS_DIR env)).filterMap
        (fun p => parseDomain env p .global) ++
      (discoverDomainPaths env (LOCAL_DOMAINS_DIR env)).filterMap
        (fun p => parseDomain env p .localSrc) := by
  refine ⟨fun hres => ?_, rfl⟩
  have heq : skillDiscoverItems env =
      (discoverSkillPaths env (GLOBAL_SKILLS_DIR env)).filterMap
        (fun p => parseSkill env p .global) := by
    simp only [skillDiscoverItems, hres, ne_eq, not_true_eq_false, if_false,
      List.append_nil]
  refine ⟨heq, ?_⟩
  intro it hit
  rw [heq] at hit
  obtain ⟨p, _, hp⟩ := List.mem_filterMap.mp hit
  exact parseSkill_source env p .global it hp

theorem skill_dedup_scan_domains_unconditional_witness :
    skillDiscoverItems c5env =
      (discoverSkillPaths c5env (GLOBAL_SKILLS_DIR c5env)).filterMap
        (fun p => parseSkill c5env p .global) ∧
    ∀ it ∈ skillDiscoverItems c5env, it.source = .global :=
  (skill_dedup_scan_domains_unconditional c5env).1 (by decide)

/-- C6 counterexample: the claim "name is never empty" fails on the code.
With a symbolic link in the skills root resolving to the filesystem root
`/` and a readable `/SKILL.md` with no front-matter name, discovery
succeeds and produces an item whose `name` is the empty string, because the
fallback `basename(dirname("/SKILL.md")) = basename("/")` is `""`. -/
theorem skill_item_name_empty_counterexample :
    skillDiscoverItems c6env =
      [{ type := "skill", name := "", description := "No description provided",
         path := "/SKILL.md", source := .global }] := by
  decide

/-- C6 (amended): for every successfully parsed item, `description` is never
empty (its fallback is the non-empty literal); and `name` is never empty
except in the degenerate case where the front-matter name is absent or blank
and the containing directory's basename is empty (the filesystem root) —
stated contrapositively: whenever `name` is empty, the containing
directory's basename is empty and the front-matter `name` field that was
read for the file was absent or blank. -/
theorem parse_name_description_nonempty
    (env : Env) (p : String) (s : Source) (it : PrimitiveItem) :
    (parseSkill env p s = some it →
      it.description ≠ "" ∧
      (it.name = "" →
        basename (dirname p) = "" ∧
        ∀ content data, env.readFile p = some content →
          env.matterData content = some data →
          ((parseFrontmatter data).getD ⟨none, none⟩).nameField = none ∨
          ((parseFrontmatter data).getD ⟨none, none⟩).nameField = some "")) ∧
    (parseDomain env p s = some it →
      it.description ≠ "" ∧
      (it.name = "" →
        basename (dirname p) = "" ∧
        ∀ content data, env.readFile p = some content →
          env.matterData content = some data →
          ((parseFrontmatter data).getD ⟨none, none⟩).nameField = none ∨
          ((parseFrontmatter data).getD ⟨none, none⟩).nameField = some "")) := by
  constructor
  · intro h
    cases hrf : env.readFile p with
    | none =>
      simp only [parseSkill, hrf] at h
      exact absurd h (by simp)
    | some content0 =>
      cases hmd : env.matterData content0 with
      | none =>
        simp only [parseSkill, hrf, hmd] at h
        exact absurd h (by simp)
      | some data0 =>
        simp only [parseSkill, hrf, hmd, Option.some.injEq] at h
        subst h
        refine ⟨jsOrStr_ne_empty _ _ (by decide), ?_⟩
        intro hname
        obtain ⟨hbase, hfm⟩ := jsOrStr_eq_empty _ _ hname
        refine ⟨hbase, ?_⟩
        intro content data hc hd
        have hceq := Option.some.inj hc
        subst hceq
        rw [hmd] at hd
        have hdeq := Option.some.inj hd
        subst hdeq
        exact hfm
  · intro h
    cases hrf : env.readFile p with
    | none =>
      simp only [parseDomain, hrf] at h
      exact absurd h (by simp)
    | some content0 =>
      cases hmd : env.matterData content0 with
      | none =>
        simp only [parseDomain, hrf, hmd] at h
        exact absurd h (by simp)
      | some data0 =>
        simp only [parseDomain, hrf, hmd, Option.some.injEq] at h
        subst h
        refine ⟨jsOrStr_ne_empty _ _ (by decide), ?_⟩
        intro hname
        obtain ⟨hbase, hfm⟩ := jsOrStr_eq_empty _ _ hname
        refine ⟨hbase, ?_⟩
        intro content data hc hd
        have hceq := Option.some.inj hc
        subst hceq
        rw [hmd] at hd
        have hdeq := Option.some.inj hd
        subst hdeq
        exact hfm

theorem parse_name_description_nonempty_witness :
    (sItem.description ≠ "" ∧ dItem.description ≠ "") ∧
    (basename (dirname "/SKILL.md") = "" ∧
     ∀ content data, c6env.readFile "/SKILL.md" = some content →
       c6env.matterData content = some data →
       ((parseFrontmatter data).getD ⟨none, none⟩).nameField = none ∨
       ((parseFrontmatter data).getD ⟨none, none⟩).nameField = some "") :=
  ⟨⟨((parse_name_description_nonempty c6wenv "/h/.claude/skills/s/SKILL.md"
        .global sItem).1 (by decide)).1,
    ((parse_name_description_nonempty c6wenv "/h/.claude/skills/s/SKILL.md"
        .global dItem).2 (by decide)).1⟩,
   ((parse_name_description_nonempty c6env "/SKILL.md" .global rootItem).1
      (by decide)).2 rfl⟩

/-! ## Claim theorems: cache -/

/-- C1: for every list of items and every prior cache state, the map that
`updateCache` persists has at most `MAX_RECENT` (10) entries; and whenever
more than 10 distinct keys are present after recording the items, exactly 10
entries are kept and every discarded entry's timestamp is at most every kept
entry's timestamp (the kept entries are the most-recently-set ones). -/
theorem updateCache_bounded_keeps_most_recent
    (items : List PrimitiveItem) (now : Rat) (m : RecentMap) :
    (updateCache items now m).length ≤ MAX_RECENT ∧
    (MAX_RECENT <
        (items.foldl (fun acc it => setKey acc (cacheKey it) now) m).length →
      (updateCache items now m).length = MAX_RECENT ∧
      ∃ dropped,
        (updateCache items now m ++ dropped).Perm
          (items.foldl (fun acc it => setKey acc (cacheKey it) now) m) ∧
        ∀ x ∈ updateCache items now m, ∀ y ∈ dropped, y.2 ≤ x.2) := by
  simp only [updateCache]
  set m2 := items.foldl (fun acc it => setKey acc (cacheKey it) now) m with hm2
  by_cases h : MAX_RECENT < m2.length
  · have hsortlen : (insertionSortB entryLE m2).length = m2.length :=
      (perm_insertionSortB entryLE m2).length_eq
    have hlen : ((insertionSortB entryLE m2).take MAX_RECENT).length = MAX_RECENT := by
      rw [List.length_take, hsortlen]
      omega
    refine ⟨?_, fun _ => ⟨?_, ?_⟩⟩
    · rw [if_pos h, hlen]
    · rw [if_pos h, hlen]
    · rw [if_pos h]
      refine ⟨(insertionSortB entryLE m2).drop MAX_RECENT, ?_, ?_⟩
      · rw [List.take_append_drop]
        exact perm_insertionSortB entryLE m2
      · intro x hx y hy
        have hp := pairwise_insertionSortB entryLE entryLE_total entryLE_trans m2
        have := pairwise_take_drop MAX_RECENT hp x hx y hy
        exact of_decide_eq_true this
  · rw [if_neg h]
    exact ⟨by omega, fun hc => absurd hc h⟩

theorem updateCache_bounded_keeps_most_recent_witness :
    (updateCache [] 99 bigCache).length = MAX_RECENT ∧
    ∃ dropped,
      (updateCache [] 99 bigCache ++ dropped).Perm
        (List.foldl (fun acc it => setKey acc (cacheKey it) 99) bigCache []) ∧
      ∀ x ∈ updateCache [] 99 bigCache, ∀ y ∈ dropped, y.2 ≤ x.2 :=
  (updateCache_bounded_keeps_most_recent [] 99 bigCache).2 (by decide)

/-- C2: `sortByRecent` returns a permutation of its input (a fresh array;
the input list itself is a value and cannot be mutated in this embedding),
sorted by the comparator "cached timestamp descending, missing entries as 0,
ties by name ascending"; and on items A (t=5000), B (no entry), C (t=5000,
name before A's) it returns [C, A, B]. -/
theorem sortByRecent_sorts
    (items : List PrimitiveItem) (m : RecentMap) :
    (sortByRecent items m).Perm items ∧
    (sortByRecent items m).Pairwise (fun a b => recentLE m a b = true) ∧
    sortByRecent [itemA, itemB, itemC] exCache = [itemC, itemA, itemB] := by
  refine ⟨perm_insertionSortB _ items,
    pairwise_insertionSortB _ (recentLE_total m) (recentLE_trans m) items,
    by decide⟩

/-- C9: storing `0` for a key that the cache does not otherwise contain gives
exactly the same `sortByRecent` ordering as leaving the key absent: both read
back as time 0 through `cache.recent[key] || 0`. -/
theorem sortByRecent_zero_entry_eq_absent
    (items : List PrimitiveItem) (m : RecentMap) (k : String)
    (h : m.lookup k = none) :
    sortByRecent items ((k, 0) :: m) = sortByRecent items m := by
  have htime : lookupTime ((k, 0) :: m) = lookupTime m := by
    funext key
    simp only [lookupTime, List.lookup]
    by_cases hk : (key == k) = true
    · have hkey : key = k := by simpa using hk
      rw [hk]
      simp [hkey, h]
    · rw [Bool.not_eq_true] at hk
      rw [hk]
  have hle : recentLE ((k, 0) :: m) = recentLE m := by
    funext a b
    simp only [recentLE, htime]
  simp only [sortByRecent, hle]

theorem sortByRecent_zero_entry_eq_absent_witness :
    sortByRecent [itemA, itemB] [("zzz", 0)] = sortByRecent [itemA, itemB] [] :=
  sortByRecent_zero_entry_eq_absent [itemA, itemB] [] "zzz" rfl

/-- C3: `loadCache` is a total function (the embedding of its try/catch), and
returns the empty map on a missing file, an unreadable file, an empty file,
any `JSON.parse` failure, and any schema mismatch — in particular on
`{"recent": "not-an-object"}`. -/
theorem loadCache_total_empty_on_failure :
    loadCache .missing = [] ∧
    loadCache .unreadable = [] ∧
    loadCache (.content "") = [] ∧
    loadCache (.content "\x7b\"recent\": \"not-an-object\"\x7d") = [] ∧
    (∀ s, parseJson s = none → loadCache (.content s) = []) ∧
    (∀ s j, parseJson s = some j → validateRecentCache j = none →
      loadCache (.content s) = []) := by
  refine ⟨rfl, rfl, by decide, by decide, ?_, ?_⟩
  · intro s hs
    simp only [loadCache, hs]
  · intro s j hs hj
    simp only [loadCache, hs, hj, Option.getD_none]

theorem loadCache_total_empty_on_failure_witness :
    loadCache (.content "oops") = [] ∧ loadCache (.content "[1]") = [] :=
  ⟨loadCache_total_empty_on_failure.2.2.2.2.1 "oops" rfl,
   loadCache_total_empty_on_failure.2.2.2.2.2 "[1]" (.arr [.num 1]) rfl rfl⟩

/-- C10: `clearCache` deletes the file and returns `true` when the file
exists and `unlinkSync` succeeds; when deletion fails the exception escapes —
there is no catch in `clearCache` (unlike `loadCache`/`saveCache`, whose
failures are swallowed internally); when the file does not exist it returns
`false` with the file state unchanged and no deletion attempted. -/
theorem clearCache_propagates_unlink_error :
    clearCache true true = .ok (true, false) ∧
    clearCache true false = .error () ∧
    clearCache false true = .ok (false, false) ∧
    clearCache false false = .ok (false, false) :=
  ⟨rfl, rfl, rfl, rfl⟩

set_option maxRecDepth 16000 in
/-- C7: `formatForPrompt` is a pure, deterministic function of its input (a
Lean function by construction), and for a single content whose item is named
`foo` with an empty references list — for any main content and description —
it succeeds and its output contains the literal header line
`AGENT PRIMER: ACTIVE SKILLS FOR THIS SESSION`, the section heading
`## foo`, and the footer line `END AGENT PRIMER`. -/
theorem formatForPrompt_frames_sections (mc desc : String) :
    ∃ out,
      skillFormatForPrompt
        [{ item := { type := "skill", name := "foo", description := desc,
                     path := "/h/.claude/skills/foo/SKILL.md",
                     source := .global },
           mainContent := mc,
           metadata := .obj [("references", .arr [])] }] = some out ∧
      "AGENT PRIMER: ACTIVE SKILLS FOR THIS SESSION".data <:+: out.data ∧
      "## foo".data <:+: out.data ∧
      "END AGENT PRIMER".data <:+: out.data := by
  refine ⟨skillHeader ++
    ("\n## foo\n> Source: /h/.claude/skills/foo\n\n" ++ mc) ++ skillFooter,
    rfl, ?_, ?_, ?_⟩
  · rw [String.data_append, String.data_append]
    exact isInfix_append_left _ (isInfix_append_left _ (by decide))
  · rw [String.data_append, String.data_append, String.data_append]
    exact isInfix_append_left _
      (isInfix_append_right _ (isInfix_append_left _ (by decide)))
  · rw [String.data_append, String.data_append]
    exact isInfix_append_right _ (by decide)

/-- C8: in the LAUNCH step, zero selected items means the only effect is
spawning with exactly the dangerous-mode args followed by the passthrough
args (no `--append-system-prompt` flag is added) and the persisted cache is
unchanged; with at least one selected item the step performs exactly one
cache update with the selected items before spawning with the injection
flag. -/
theorem launch_skips_cache_and_prompt_when_empty
    (sel : List PrimitiveItem) (dang cl : List String) (prompt : String)
    (now : Rat) (m : RecentMap) :
    (sel = [] →
      launchStep sel dang cl prompt = [.spawnClaude (dang ++ cl)] ∧
      applyCacheEffects (launchStep sel dang cl prompt) now m = m) ∧
    (sel ≠ [] →
      launchStep sel dang cl prompt =
        [.cacheUpdate sel,
         .spawnClaude (dang ++ ["--append-system-prompt", prompt] ++ cl)] ∧
      applyCacheEffects (launchStep sel dang cl prompt) now m =
        updateCache sel now m) := by
  constructor
  · intro hsel
    subst hsel
    exact ⟨rfl, rfl⟩
  · intro hsel
    have hlen : ¬ sel.length = 0 := fun h => hsel (List.length_eq_zero.mp h)
    constructor
    · simp only [launchStep, if_neg hlen]
    · simp only [launchStep, applyCacheEffects, if_neg hlen, List.foldl_cons,
        List.foldl_nil]

theorem launch_skips_cache_and_prompt_when_empty_witness :
    (launchStep [] ["--dangerously-skip-permissions"] ["-p"] "P" =
      [.spawnClaude ["--dangerously-skip-permissions", "-p"]] ∧
     applyCacheEffects
       (launchStep [] ["--dangerously-skip-permissions"] ["-p"] "P") 7 exCache =
       exCache) ∧
    (launchStep [itemA] [] [] "P" =
      [.cacheUpdate [itemA],
       .spawnClaude ["--append-system-prompt", "P"]] ∧
     applyCacheEffects (launchStep [itemA] [] [] "P") 7 exCache =
       updateCache [itemA] 7 exCache) :=
  ⟨(launch_skips_cache_and_prompt_when_empty []
      ["--dangerously-skip-permissions"] ["-p"] "P" 7 exCache).1 rfl,
   (launch_skips_cache_and_prompt_when_empty [itemA] [] [] "P" 7 exCache).2
     (by decide)⟩

end AgentPrimer
